import Mathlib

/-
Verification of the bill/payment reconciliation logic of the
Agro Trade Digital Portal (myApp/models.py and myApp/views.py).

Monetary values are Django DecimalField(decimal_places=2) values, i.e. exact
multiples of 0.01; we embed them as integers (amounts in paise), so Int
addition, subtraction, comparison and min/max model Decimal arithmetic
exactly.  Customers are identified by a Nat id.  The database tables we need
(the customer rows and the bill rows of one deployment) are embedded as an
explicit state record; a list of bills is kept in ascending date order, which
is the order the distribution query (order_by date) iterates in.
-/

namespace Agro

/-- The three values of Bill.payment_status: the strings "pending",
"partial" (constructor named part) and "paid" in models.py. -/
inductive PayStatus where
  | pending : PayStatus
  | part : PayStatus
  | paid : PayStatus
deriving DecidableEq, Repr

/-- One Bill row: customer foreign key, total_amount, paid_amount,
remaining_amount, payment_status (models.py, class Bill). -/
structure BillR where
  cust : Nat
  total : Int
  paid : Int
  remaining : Int
  status : PayStatus
deriving DecidableEq, Repr

/-- Bill.save (models.py lines 84-103), the field recomputation it performs
before writing the row: remaining_amount := total_amount - paid_amount, then
the status chain, where the paid branch also overwrites remaining with 0. -/
def billSaveFields (b : BillR) : BillR :=
  let b0 : BillR := { b with remaining := b.total - b.paid }
  if b0.paid = 0 then { b0 with status := PayStatus.pending }
  else if b0.paid ≥ b0.total then
    { b0 with status := PayStatus.paid, remaining := 0 }
  else { b0 with status := PayStatus.part }

/-- Payment.save, linked-bill branch (models.py lines 142-167): add the
payment amount to paid_amount, cap at total_amount, recompute status and
remaining, then call bill.save() which recomputes both again. -/
def payLinked (amount : Int) (b : BillR) : BillR :=
  let paid1 := b.paid + amount
  let paid2 := if paid1 > b.total then b.total else paid1
  let b1 : BillR :=
    if paid2 = 0 then { b with paid := paid2, status := PayStatus.pending }
    else if paid2 ≥ b.total then
      { b with paid := paid2, status := PayStatus.paid, remaining := 0 }
    else { b with paid := paid2, status := PayStatus.part }
  let b2 : BillR := { b1 with remaining := b1.total - b1.paid }
  billSaveFields b2

/-- Payment.delete, linked-bill branch (models.py lines 230-254): subtract
the payment amount from paid_amount, floor at 0, recompute status and
remaining, then call bill_refreshed.save() which recomputes both again. -/
def payDeleteLinked (amount : Int) (b : BillR) : BillR :=
  let paid1 := b.paid - amount
  let paid2 := if paid1 < 0 then 0 else paid1
  let b1 : BillR :=
    if paid2 = 0 then { b with paid := paid2, status := PayStatus.pending }
    else if paid2 ≥ b.total then
      { b with paid := paid2, status := PayStatus.paid, remaining := 0 }
    else { b with paid := paid2, status := PayStatus.part }
  let b2 : BillR := { b1 with remaining := b1.total - b1.paid }
  billSaveFields b2

/-- The filter of the distribution queryset (models.py lines 184-187):
bills of this customer whose payment_status is in {pending, partial}. -/
def openFor (payer : Nat) (b : BillR) : Bool :=
  b.cust == payer && (b.status == PayStatus.pending || b.status == PayStatus.part)

/-- Payment.update_customer_pending_bills (models.py lines 178-219), the
loop over the date-ordered queryset, written as one pass over the
date-ordered bill list that skips rows the queryset filter excludes:
break when the residual is exhausted, pay min(residual, bill.remaining),
skip bills where that is not positive, recompute status and remaining and
call bill.save() on each bill actually paid. -/
def distributeBills (payer : Nat) (amount : Int) : List BillR → List BillR
  | [] => []
  | b :: bs =>
    if openFor payer b then
      if amount ≤ 0 then b :: bs
      else
        let pay := min amount b.remaining
        if 0 < pay then
          let b1 : BillR := { b with paid := b.paid + pay }
          let b2 : BillR :=
            if b1.paid ≥ b1.total then
              { b1 with status := PayStatus.paid, remaining := 0 }
            else
              { b1 with status := PayStatus.part,
                        remaining := b1.total - b1.paid }
          billSaveFields b2 :: distributeBills payer (amount - pay) bs
        else b :: distributeBills payer amount bs
    else b :: distributeBills payer amount bs

/-- Modelled from the spec wording of the distribution (claim C3): over the
customer's open bills oldest first, pay each bill min(residual, its
remaining_amount) - a save re-deriving its fields - until the amount is
exhausted or the bills run out; any leftover is discarded. -/
def specGreedy (amount : Int) : List BillR → List BillR
  | [] => []
  | b :: bs =>
    if amount ≤ 0 then b :: bs
    else
      let pay := min amount b.remaining
      billSaveFields { b with paid := b.paid + pay } :: specGreedy (amount - pay) bs

/-- Customer.update_balance aggregate (models.py lines 52-56): the sum of
remaining_amount over all of this customer's bills. -/
def sumRemaining (bills : List BillR) (c : Nat) : Int :=
  ((bills.filter (fun b => b.cust == c)).map (fun b => b.remaining)).sum

/-- Sum of paid_amount over one customer's bills. -/
def sumPaidFor (payer : Nat) (bills : List BillR) : Int :=
  ((bills.filter (fun b => b.cust == payer)).map (fun b => b.paid)).sum

/-- Sum of remaining_amount over the customer's open (pending/partial)
bills, the amounts the distribution can absorb. -/
def sumOpenRemaining (payer : Nat) (bills : List BillR) : Int :=
  ((bills.filter (openFor payer)).map (fun b => b.remaining)).sum

/-- The database state the reconciliation logic touches: the customer ids,
their cached outstanding_balance column, and the bill rows in ascending
date order. -/
structure St where
  custs : List Nat
  bal : Nat → Int
  bills : List BillR

/-- Customer.update_balance (models.py lines 48-68): recompute this
customer's cached outstanding_balance from all of their bills and store it
(the only-update-if-different guard has no further effect). -/
def updateBalance (s : St) (c : Nat) : St :=
  { s with bal := fun x => if x = c then sumRemaining s.bills c else s.bal x }

/-- Creating a Bill row (Bill.save on a new object plus the post_save
signal): append the recomputed row, then update its customer's balance. -/
def opBillCreate (s : St) (c : Nat) (total paid : Int) : St :=
  let b := billSaveFields
    { cust := c, total := total, paid := paid, remaining := 0,
      status := PayStatus.pending }
  updateBalance { s with bills := s.bills ++ [b] } c

/-- Saving the existing Bill row at index i with new amounts (Bill.save
plus the post_save signal): recompute its fields, write it back, update
its customer's balance. -/
def opBillSave (s : St) (i : Nat) (total paid : Int) : St :=
  match s.bills[i]? with
  | none => s
  | some b =>
    let b1 := billSaveFields { b with total := total, paid := paid }
    updateBalance { s with bills := s.bills.set i b1 } b.cust

/-- Deleting the Bill row at index i (the post_delete signal then updates
the customer's balance, models.py lines 273-277). -/
def opBillDelete (s : St) (i : Nat) : St :=
  match s.bills[i]? with
  | none => s
  | some b => updateBalance { s with bills := s.bills.eraseIdx i } b.cust

/-- Payment.save with a linked bill at index i (models.py lines 135-176):
update the bill, whose own save updates the bill customer's balance, then
update the paying customer's balance (the post_save signal repeats the
last step). A missing bill row only logs, then the balance update runs. -/
def opPayLinked (s : St) (i : Nat) (payer : Nat) (amount : Int) : St :=
  match s.bills[i]? with
  | none => updateBalance s payer
  | some b =>
    let s1 : St := { s with bills := s.bills.set i (payLinked amount b) }
    updateBalance (updateBalance s1 b.cust) payer

/-- Payment.save with no linked bill (models.py lines 171-176): distribute
over the customer's open bills (each inner bill.save updates this same
customer's balance), then update the customer's balance. -/
def opPayUnlinked (s : St) (payer : Nat) (amount : Int) : St :=
  updateBalance { s with bills := distributeBills payer amount s.bills } payer

/-- Payment.delete (models.py lines 221-260): if a bill is linked, reverse
the amount on it (its save updates the bill customer's balance), then
update the paying customer's balance; with no linked bill only the final
balance update runs. -/
def opPayDelete (s : St) (bi : Option Nat) (payer : Nat) (amount : Int) : St :=
  match bi with
  | none => updateBalance s payer
  | some i =>
    match s.bills[i]? with
    | none => updateBalance s payer
    | some b =>
      let s1 : St := { s with bills := s.bills.set i (payDeleteLinked amount b) }
      updateBalance (updateBalance s1 b.cust) payer

/-- The Bill/Payment writes and deletes the application performs. -/
inductive Op where
  | billCreate (c : Nat) (total paid : Int) : Op
  | billSaveIdx (i : Nat) (total paid : Int) : Op
  | billDelete (i : Nat) : Op
  | payCreate (bi : Option Nat) (payer : Nat) (amount : Int) : Op
  | payDelete (bi : Option Nat) (payer : Nat) (amount : Int) : Op

/-- Effect of one operation on the database state. -/
def applyOp (s : St) : Op → St
  | Op.billCreate c t p => opBillCreate s c t p
  | Op.billSaveIdx i t p => opBillSave s i t p
  | Op.billDelete i => opBillDelete s i
  | Op.payCreate (some i) payer a => opPayLinked s i payer a
  | Op.payCreate none payer a => opPayUnlinked s payer a
  | Op.payDelete bi payer a => opPayDelete s bi payer a

/-- Well-formedness of an operation against a state: a created bill's
customer is a row of the customer table. -/
def opWF (s : St) : Op → Prop
  | Op.billCreate c _ _ => c ∈ s.custs
  | _ => True

/-- Every customer's cached outstanding_balance equals the sum of
remaining_amount over all of that customer's bills. -/
def Consistent (s : St) : Prop :=
  ∀ c ∈ s.custs, s.bal c = sumRemaining s.bills c

/-- Every bill row's customer is a row of the customer table. -/
def Covered (s : St) : Prop :=
  ∀ b ∈ s.bills, b.cust ∈ s.custs

/-- Auxiliary relation for frame reasoning: l2 differs from l1 only at
rows of customer c, and never changes a row's customer. -/
def SameExcept (c : Nat) (l1 l2 : List BillR) : Prop :=
  l1.length = l2.length ∧
    ∀ p ∈ l1.zip l2, p.1.cust = p.2.cust ∧ (p.1.cust ≠ c → p.2 = p.1)

/-
Bill-creation view, myApp/views.py save_final_bill (lines 229-300).
One submitted line item is three request strings (product id, quantity,
price).  The Python exceptions that can escape the per-item try block are
embedded explicitly: Product.DoesNotExist and ValueError are caught by the
except clause; decimal.InvalidOperation - what Decimal(str) raises on a
malformed price, an ArithmeticError and not a ValueError - is not.
Decimal price strings are modelled as integer paise strings, so one integer
parser models both int(str) parsing (ValueError on failure) and Decimal(str)
parsing (InvalidOperation on failure).
-/

/-- Accumulating decimal-digit parser over the characters of a numeral. -/
def digitsToNat : List Char → Nat → Option Nat
  | [], acc => some acc
  | c :: cs, acc =>
    if c.isDigit then digitsToNat cs (acc * 10 + (c.toNat - 48)) else none

/-- Success or failure of Python int(str) and, on integer paise strings,
Decimal(str): an optional sign followed by at least one digit. -/
def pyIntParse (s : String) : Option Int :=
  match s.data with
  | [] => none
  | '-' :: cs =>
    match cs with
    | [] => none
    | _ => (digitsToNat cs 0).map (fun n => -(n : Int))
  | cs => (digitsToNat cs 0).map (fun n => (n : Int))

/-- One line item of the submitted form: final_products[i],
final_quantities[i], final_prices[i]. -/
structure LineInput where
  product : String
  qty : String
  price : String
deriving DecidableEq, Repr

/-- The uncaught-exception-relevant outcome classes of one line item. -/
inductive PyExc where
  | invalidOperation : PyExc
deriving DecidableEq, Repr

/-- A BillItem row created by the loop: product id, quantity, price, and
the line total price * quantity. -/
structure SavedLine where
  productId : Int
  quantity : Int
  price : Int
  lineTotal : Int
deriving DecidableEq, Repr

/-- The body of the per-item try block (views.py lines 270-285): look the
product up (ValueError on a non-numeric id and Product.DoesNotExist are
caught, yielding a skip), parse the quantity with int() (ValueError caught,
skip), parse the price with Decimal() (InvalidOperation NOT caught: it
escapes), else create the BillItem row. -/
def tryLine (productIds : List Int) (ln : LineInput) : Except PyExc (Option SavedLine) :=
  match pyIntParse ln.product with
  | none => Except.ok none
  | some pid =>
    if pid ∈ productIds then
      match pyIntParse ln.qty with
      | none => Except.ok none
      | some q =>
        match pyIntParse ln.price with
        | none => Except.error PyExc.invalidOperation
        | some pr => Except.ok (some { productId := pid, quantity := q,
                                       price := pr, lineTotal := pr * q })
    else Except.ok none

/-- The item loop of save_final_bill (views.py lines 268-287): skip rows
with an empty field, run the try block on the rest; a caught exception
skips the row, an uncaught one aborts the loop - the rows already created
stay in the database (no enclosing transaction) and no later row is
processed.  Returns the BillItem rows created and the escaping exception,
if any. -/
def processLines (productIds : List Int) : List LineInput → List SavedLine × Option PyExc
  | [] => ([], none)
  | ln :: rest =>
    if ln.product ≠ "" ∧ ln.qty ≠ "" ∧ ln.price ≠ "" then
      match tryLine productIds ln with
      | Except.error e => ([], some e)
      | Except.ok none => processLines productIds rest
      | Except.ok (some s) =>
        let r := processLines productIds rest
        (s :: r.1, r.2)
    else processLines productIds rest

/-- Outcome of one save_final_bill submission: the Bill row is created
before the item loop runs (views.py lines 254-261) and is never rolled
back; then the item rows and the escaping exception of the loop. -/
structure SubmitResult where
  billCreated : Bool
  items : List SavedLine
  error : Option PyExc
deriving DecidableEq, Repr

/-- save_final_bill (views.py lines 229-300) restricted to the state it
persists: the Bill row, the BillItem rows, and whether the request
finished normally (error = none, the redirect) or aborted on an uncaught
exception (error = some). -/
def saveFinalBill (productIds : List Int) (lines : List LineInput) : SubmitResult :=
  let r := processLines productIds lines
  { billCreated := true, items := r.1, error := r.2 }

/-- Concrete bill table used to instantiate the distribution theorem:
two open bills of customer 7 with another customer's bill in between. -/
def c3WitnessBills : List BillR :=
  [{ cust := 7, total := 500, paid := 0, remaining := 500,
     status := PayStatus.pending },
   { cust := 8, total := 100, paid := 0, remaining := 100,
     status := PayStatus.pending },
   { cust := 7, total := 800, paid := 300, remaining := 500,
     status := PayStatus.part }]

/-- Concrete bill table used to instantiate the conservation theorem. -/
def c9WitnessBills : List BillR :=
  [{ cust := 3, total := 200, paid := 0, remaining := 200,
     status := PayStatus.pending },
   { cust := 3, total := 400, paid := 100, remaining := 300,
     status := PayStatus.part },
   { cust := 4, total := 50, paid := 0, remaining := 50,
     status := PayStatus.pending }]

/-- Concrete database state used to instantiate the balance invariant:
two customers, one open bill, consistent cached balances. -/
def c4WitnessState : St :=
  { custs := [1, 2],
    bal := fun c => if c = 1 then 70 else 0,
    bills := [{ cust := 1, total := 100, paid := 30, remaining := 70,
                status := PayStatus.part }] }

/-! Helper lemmas about the save recomputation. -/

theorem billSaveFields_cust (b : BillR) : (billSaveFields b).cust = b.cust := by
  unfold billSaveFields
  dsimp only
  split_ifs <;> rfl

theorem billSaveFields_total (b : BillR) : (billSaveFields b).total = b.total := by
  unfold billSaveFields
  dsimp only
  split_ifs <;> rfl

theorem billSaveFields_paid (b : BillR) : (billSaveFields b).paid = b.paid := by
  unfold billSaveFields
  dsimp only
  split_ifs <;> rfl

theorem billSaveFields_congr (x y : BillR) (hc : x.cust = y.cust)
    (ht : x.total = y.total) (hp : x.paid = y.paid) :
    billSaveFields x = billSaveFields y := by
  cases x
  cases y
  simp only at hc ht hp
  subst hc ht hp
  rfl

theorem payLinked_eq (amount : Int) (b : BillR) :
    payLinked amount b = billSaveFields { b with paid := min (b.paid + amount) b.total } := by
  unfold payLinked
  dsimp only
  split_ifs with h1 h2 h3 <;> apply billSaveFields_congr <;> simp <;> omega

theorem payDeleteLinked_eq (amount : Int) (b : BillR) :
    payDeleteLinked amount b = billSaveFields { b with paid := max (b.paid - amount) 0 } := by
  unfold payDeleteLinked
  dsimp only
  split_ifs with h1 h2 h3 <;> apply billSaveFields_congr <;> simp <;> omega

/-- C1 (counterexample): with paid_amount = 0 and a negative total_amount,
Bill.save stores remaining_amount = total_amount, which is negative, not
max(total_amount - paid_amount, 0) = 0: the clamp of the claim does not
happen in the pending branch. -/
theorem c1_clamp_cex :
    ¬ ((billSaveFields
          { cust := 0, total := -1, paid := 0, remaining := 0,
            status := PayStatus.pending }).remaining
        = max ((-1 : Int) - 0) 0) := by
  decide

/-- C1 (amended): after any Bill.save, remaining_amount equals
max(total_amount - paid_amount, 0) whenever total_amount is nonnegative or
paid_amount is nonzero; only a bill saved with paid_amount = 0 and a
negative total_amount escapes the clamp (its remaining is total_amount). -/
theorem c1_remaining_clamped (b : BillR) (h : 0 ≤ b.total ∨ b.paid ≠ 0) :
    (billSaveFields b).remaining = max (b.total - b.paid) 0 := by
  unfold billSaveFields
  dsimp only
  split_ifs with h1 h2 <;> simp only [] <;> omega

/-- Concrete instance of c1_remaining_clamped. -/
theorem c1_remaining_clamped_witness :
    (billSaveFields
        { cust := 0, total := 100, paid := 30, remaining := 0,
          status := PayStatus.pending }).remaining
      = max ((100 : Int) - 30) 0 :=
  c1_remaining_clamped
    { cust := 0, total := 100, paid := 30, remaining := 0,
      status := PayStatus.pending }
    (by decide)

/-- C7 (counterexample): a bill saved with total_amount = 0 and
paid_amount = 1 gets payment_status = paid and remaining_amount = 0
although total_amount > 0 fails, so status = paid is not equivalent to
remaining = 0 and total > 0. -/
theorem c7_paid_iff_cex :
    ¬ (((billSaveFields
            { cust := 0, total := 0, paid := 1, remaining := 0,
              status := PayStatus.pending }).status = PayStatus.paid)
        ↔ ((billSaveFields
              { cust := 0, total := 0, paid := 1, remaining := 0,
                status := PayStatus.pending }).remaining = 0
            ∧ 0 < (billSaveFields
                { cust := 0, total := 0, paid := 1, remaining := 0,
                  status := PayStatus.pending }).total)) := by
  decide

/-- C7 (amended): for every bill with positive total_amount, after any
save, payment_status = paid holds if and only if remaining_amount = 0;
bills saved with total_amount less than or equal to 0 can carry status paid
with the equivalence's right side false. -/
theorem c7_paid_iff (b : BillR) (h : 0 < b.total) :
    (billSaveFields b).status = PayStatus.paid
      ↔ ((billSaveFields b).remaining = 0 ∧ 0 < (billSaveFields b).total) := by
  unfold billSaveFields
  dsimp only
  split_ifs with h1 h2 <;> simp <;> omega

/-- Concrete instance of c7_paid_iff. -/
theorem c7_paid_iff_witness :
    (billSaveFields
        { cust := 0, total := 100, paid := 100, remaining := 0,
          status := PayStatus.pending }).status = PayStatus.paid
      ↔ ((billSaveFields
            { cust := 0, total := 100, paid := 100, remaining := 0,
              status := PayStatus.pending }).remaining = 0
          ∧ 0 < (billSaveFields
              { cust := 0, total := 100, paid := 100, remaining := 0,
                status := PayStatus.pending }).total) :=
  c7_paid_iff
    { cust := 0, total := 100, paid := 100, remaining := 0,
      status := PayStatus.pending }
    (by decide)

/-- C2 (counterexample): the saved, consistent bill with total_amount = 0
(remaining R = 0) and a positive linked payment A = 1 with A at least R: the
cap sets paid_amount back to 0, and the resulting status is pending, not
paid as the claim requires. -/
theorem c2_linked_cex :
    (billSaveFields
        { cust := 0, total := 0, paid := 0, remaining := 0,
          status := PayStatus.pending }
      = { cust := 0, total := 0, paid := 0, remaining := 0,
          status := PayStatus.pending })
    ∧ ((1 : Int) ≥
        ({ cust := 0, total := 0, paid := 0, remaining := 0,
           status := PayStatus.pending } : BillR).remaining)
    ∧ (payLinked 1
        { cust := 0, total := 0, paid := 0, remaining := 0,
          status := PayStatus.pending }).status ≠ PayStatus.paid := by
  decide

/-- C2 (amended): for every bill in saved, non-overpaid state with POSITIVE
total_amount (0 <= paid <= total, remaining = total - paid) and every
positive linked payment A: if A is at least the remaining R, the result has
status paid and remaining 0; otherwise status partial and remaining R - A. -/
theorem c2_linked_payment (b : BillR) (A : Int) (hA : 0 < A) (ht : 0 < b.total)
    (hp0 : 0 ≤ b.paid) (hpt : b.paid ≤ b.total)
    (hr : b.remaining = b.total - b.paid) :
    if A ≥ b.remaining then
      (payLinked A b).status = PayStatus.paid ∧ (payLinked A b).remaining = 0
    else
      (payLinked A b).status = PayStatus.part
        ∧ (payLinked A b).remaining = b.remaining - A := by
  rw [payLinked_eq]
  unfold billSaveFields
  dsimp only
  split_ifs <;> simp_all <;> omega

/-- Concrete instance of c2_linked_payment. -/
theorem c2_linked_payment_witness :
    if (40 : Int) ≥
        ({ cust := 0, total := 100, paid := 0, remaining := 100,
           status := PayStatus.pending } : BillR).remaining then
      (payLinked 40
          { cust := 0, total := 100, paid := 0, remaining := 100,
            status := PayStatus.pending }).status = PayStatus.paid
        ∧ (payLinked 40
            { cust := 0, total := 100, paid := 0, remaining := 100,
              status := PayStatus.pending }).remaining = 0
    else
      (payLinked 40
          { cust := 0, total := 100, paid := 0, remaining := 100,
            status := PayStatus.pending }).status = PayStatus.part
        ∧ (payLinked 40
            { cust := 0, total := 100, paid := 0, remaining := 100,
              status := PayStatus.pending }).remaining
          = ({ cust := 0, total := 100, paid := 0, remaining := 100,
               status := PayStatus.pending } : BillR).remaining - 40 :=
  c2_linked_payment
    { cust := 0, total := 100, paid := 0, remaining := 100,
      status := PayStatus.pending }
    40 (by decide) (by decide) (by decide) (by decide) (by decide)

/-- C5 (counterexample): bill with total 100, paid 50; a linked payment of
100 caps paid_amount at 100, and deleting that payment floors 100 - 100 at
0: the prior paid_amount 50 is not restored. -/
theorem c5_roundtrip_cex :
    (payDeleteLinked 100 (payLinked 100
        { cust := 0, total := 100, paid := 50, remaining := 50,
          status := PayStatus.part })).paid ≠ (50 : Int) := by
  decide

/-- C5 (amended): creating then deleting a linked payment of positive
amount A restores the bill's prior paid_amount whenever the prior
paid_amount is nonnegative and paid_amount + A does not exceed
total_amount (the overpayment cap does not engage); when the cap engages
the round trip loses the capped excess. -/
theorem c5_delete_inverts_create (b : BillR) (A : Int) (hA : 0 < A)
    (h0 : 0 ≤ b.paid) (hc : b.paid + A ≤ b.total) :
    (payDeleteLinked A (payLinked A b)).paid = b.paid := by
  rw [payLinked_eq, payDeleteLinked_eq, billSaveFields_paid, billSaveFields_paid]
  dsimp only
  omega

/-- Concrete instance of c5_delete_inverts_create. -/
theorem c5_delete_inverts_create_witness :
    (payDeleteLinked 30 (payLinked 30
        { cust := 0, total := 100, paid := 20, remaining := 80,
          status := PayStatus.part })).paid
      = ({ cust := 0, total := 100, paid := 20, remaining := 80,
           status := PayStatus.part } : BillR).paid :=
  c5_delete_inverts_create
    { cust := 0, total := 100, paid := 20, remaining := 80,
      status := PayStatus.part }
    30 (by decide) (by decide) (by decide)

/-- C6: deleting a payment of amount A linked to the bill at index i
replaces that bill by the result of subtracting A from paid_amount floored
at zero with remaining_amount and payment_status re-derived from the new
paid_amount by the save, and afterwards both the bill customer's and the
paying customer's cached balances equal the recomputed sum over the new
bill table. -/
theorem c6_payment_delete_linked (s : St) (i : Nat) (payer : Nat) (A : Int)
    (b : BillR) (hb : s.bills[i]? = some b) :
    (opPayDelete s (some i) payer A).bills
        = s.bills.set i (billSaveFields { b with paid := max (b.paid - A) 0 })
    ∧ (opPayDelete s (some i) payer A).bal b.cust
        = sumRemaining (opPayDelete s (some i) payer A).bills b.cust
    ∧ (opPayDelete s (some i) payer A).bal payer
        = sumRemaining (opPayDelete s (some i) payer A).bills payer := by
  simp only [opPayDelete, hb, updateBalance, payDeleteLinked_eq]
  refine ⟨by trivial, ?_, ?_⟩
  · by_cases h : b.cust = payer <;> simp [h]
  · simp

/-- Concrete instance of c6_payment_delete_linked. -/
theorem c6_payment_delete_linked_witness :
    (opPayDelete
        { custs := [1], bal := fun _ => 40,
          bills := [{ cust := 1, total := 100, paid := 60, remaining := 40,
                      status := PayStatus.part }] }
        (some 0) 1 60).bills
      = ([{ cust := 1, total := 100, paid := 60, remaining := 40,
            status := PayStatus.part }] : List BillR).set 0
          (billSaveFields
            { cust := 1, total := 100, paid := max ((60 : Int) - 60) 0,
              remaining := 40, status := PayStatus.part })
    ∧ (opPayDelete
        { custs := [1], bal := fun _ => 40,
          bills := [{ cust := 1, total := 100, paid := 60, remaining := 40,
                      status := PayStatus.part }] }
        (some 0) 1 60).bal 1
      = sumRemaining
          (opPayDelete
            { custs := [1], bal := fun _ => 40,
              bills := [{ cust := 1, total := 100, paid := 60, remaining := 40,
                          status := PayStatus.part }] }
            (some 0) 1 60).bills 1
    ∧ (opPayDelete
        { custs := [1], bal := fun _ => 40,
          bills := [{ cust := 1, total := 100, paid := 60, remaining := 40,
                      status := PayStatus.part }] }
        (some 0) 1 60).bal 1
      = sumRemaining
          (opPayDelete
            { custs := [1], bal := fun _ => 40,
              bills := [{ cust := 1, total := 100, paid := 60, remaining := 40,
                          status := PayStatus.part }] }
            (some 0) 1 60).bills 1 :=
  c6_payment_delete_linked
    { custs := [1], bal := fun _ => 40,
      bills := [{ cust := 1, total := 100, paid := 60, remaining := 40,
                  status := PayStatus.part }] }
    0 1 60
    { cust := 1, total := 100, paid := 60, remaining := 40,
      status := PayStatus.part }
    (by rfl)

/-- C10: deleting a payment with no linked bill leaves every bill row and
the customer table unchanged; the only cell written is the paying
customer's cached outstanding_balance, recomputed from the unchanged
bills, so the distribution applied at creation is never reversed. -/
theorem c10_unlinked_delete_frame (s : St) (payer : Nat) (A : Int) :
    (opPayDelete s none payer A).bills = s.bills
    ∧ (opPayDelete s none payer A).custs = s.custs
    ∧ (opPayDelete s none payer A).bal
        = fun c => if c = payer then sumRemaining s.bills payer else s.bal c :=
  ⟨rfl, rfl, rfl⟩

/-- C8: evaluation of the bill-creation item loop. First input: one
well-formed line, then a line with an unparsable price, then another
well-formed line - the loop aborts on decimal.InvalidOperation (not caught
by the except clause, which only catches Product.DoesNotExist and
ValueError), the submission fails, and the later well-formed line is never
saved. Second input: a line with an unparsable quantity is skipped and the
submission succeeds, saving the remaining well-formed line. -/
theorem c8_malformed_line_items :
    saveFinalBill [1]
      [ { product := "1", qty := "2", price := "320" },
        { product := "1", qty := "1", price := "abc" },
        { product := "1", qty := "3", price := "320" } ]
      = { billCreated := true,
          items := [{ productId := 1, quantity := 2, price := 320,
                      lineTotal := 640 }],
          error := some PyExc.invalidOperation }
    ∧ saveFinalBill [1]
      [ { product := "1", qty := "x", price := "320" },
        { product := "1", qty := "3", price := "320" } ]
      = { billCreated := true,
          items := [{ productId := 1, quantity := 3, price := 320,
                      lineTotal := 960 }],
          error := none } := by
  exact ⟨by decide, by decide⟩

/-! Step lemmas for the distribution loop. -/

theorem distributeBills_cons_other (payer : Nat) (a : Int) (b : BillR)
    (bs : List BillR) (ho : openFor payer b = false) :
    distributeBills payer a (b :: bs) = b :: distributeBills payer a bs := by
  simp [distributeBills, ho]

theorem distributeBills_cons_break (payer : Nat) (a : Int) (b : BillR)
    (bs : List BillR) (ho : openFor payer b = true) (ha : a ≤ 0) :
    distributeBills payer a (b :: bs) = b :: bs := by
  simp [distributeBills, ho, ha]

theorem distributeBills_cons_pay (payer : Nat) (a : Int) (b : BillR)
    (bs : List BillR) (ho : openFor payer b = true) (ha : 0 < a)
    (hp : 0 < min a b.remaining) :
    distributeBills payer a (b :: bs)
      = billSaveFields { b with paid := b.paid + min a b.remaining }
          :: distributeBills payer (a - min a b.remaining) bs := by
  simp only [distributeBills, ho, if_true]
  rw [if_neg (by omega), if_pos hp]
  refine congrArg₂ _ ?_ rfl
  apply billSaveFields_congr <;> split_ifs <;> rfl

theorem distributeBills_cons_skip (payer : Nat) (a : Int) (b : BillR)
    (bs : List BillR) (ho : openFor payer b = true) (ha : 0 < a)
    (hp : ¬ 0 < min a b.remaining) :
    distributeBills payer a (b :: bs) = b :: distributeBills payer a bs := by
  simp only [distributeBills, ho, if_true]
  rw [if_neg (by omega), if_neg hp]

theorem zip_self_eq {α : Type} (l : List α) : ∀ p ∈ l.zip l, p.1 = p.2 := by
  induction l with
  | nil => intro p hp; cases hp
  | cons a t ih =>
    intro p hp
    rcases List.mem_cons.mp hp with h | h
    · rw [h]
    · exact ih p h

theorem filterMap_zip_self (payer : Nat) (l : List BillR) :
    (l.zip l).filterMap (fun p => if openFor payer p.1 then some p.2 else none)
      = l.filter (openFor payer) := by
  induction l with
  | nil => rfl
  | cons a t ih =>
    simp only [List.zip_cons_cons, List.filterMap_cons, List.filter_cons]
    by_cases h : openFor payer a <;> simp [h, ih]

theorem specGreedy_cons_stop (a : Int) (b : BillR) (l : List BillR)
    (ha : a ≤ 0) : specGreedy a (b :: l) = b :: l := by
  rw [specGreedy, if_pos ha]

theorem specGreedy_cons_go (a : Int) (b : BillR) (l : List BillR)
    (ha : 0 < a) :
    specGreedy a (b :: l)
      = billSaveFields { b with paid := b.paid + min a b.remaining }
          :: specGreedy (a - min a b.remaining) l := by
  rw [specGreedy, if_neg (by omega)]

/-- C3: the unlinked-payment distribution touches exactly the paying
customer's pending/partial bills, in date order: every other row is left
unchanged, and the sequence of new values of the open rows is the greedy
allocation of the spec (pay each open bill min(residual, its remaining),
stop when the amount is exhausted or the bills run out, leftover
discarded), over bills in saved state with nonnegative remaining. -/
theorem c3_distribution (payer : Nat) (a : Int) (bills : List BillR)
    (hsav : ∀ b ∈ bills, billSaveFields b = b)
    (hr : ∀ b ∈ bills, 0 ≤ b.remaining) :
    (distributeBills payer a bills).length = bills.length
    ∧ (∀ p ∈ bills.zip (distributeBills payer a bills),
        openFor payer p.1 = false → p.2 = p.1)
    ∧ (bills.zip (distributeBills payer a bills)).filterMap
          (fun p => if openFor payer p.1 then some p.2 else none)
        = specGreedy a (bills.filter (openFor payer)) := by
  induction bills generalizing a with
  | nil =>
    refine ⟨rfl, ?_, rfl⟩
    intro p hp
    cases hp
  | cons b bs ih =>
    have hsav' : ∀ x ∈ bs, billSaveFields x = x :=
      fun x hx => hsav x (List.mem_cons_of_mem _ hx)
    have hr' : ∀ x ∈ bs, 0 ≤ x.remaining :=
      fun x hx => hr x (List.mem_cons_of_mem _ hx)
    have hrb : 0 ≤ b.remaining := hr b (List.mem_cons_self _ _)
    by_cases ho : openFor payer b
    · by_cases ha : a ≤ 0
      · rw [distributeBills_cons_break payer a b bs ho ha]
        refine ⟨rfl, ?_, ?_⟩
        · intro p hp _
          exact (zip_self_eq _ p hp).symm
        · rw [filterMap_zip_self, List.filter_cons_of_pos ho,
            specGreedy_cons_stop _ _ _ ha]
      · push_neg at ha
        by_cases hp : 0 < min a b.remaining
        · rw [distributeBills_cons_pay payer a b bs ho ha hp]
          obtain ⟨ih1, ih2, ih3⟩ := ih (a - min a b.remaining) hsav' hr'
          refine ⟨?_, ?_, ?_⟩
          · simp only [List.length_cons, ih1]
          · rw [List.zip_cons_cons]
            intro p hmem hpo
            rcases List.mem_cons.mp hmem with h | h
            · simp [h, ho] at hpo
            · exact ih2 p h hpo
          · rw [List.zip_cons_cons, List.filter_cons_of_pos ho,
              specGreedy_cons_go _ _ _ ha]
            simp [List.filterMap_cons, ho, ih3]
        · rw [distributeBills_cons_skip payer a b bs ho ha hp]
          obtain ⟨ih1, ih2, ih3⟩ := ih a hsav' hr'
          have hp0 : min a b.remaining = 0 := by omega
          refine ⟨?_, ?_, ?_⟩
          · simp only [List.length_cons, ih1]
          · rw [List.zip_cons_cons]
            intro p hmem hpo
            rcases List.mem_cons.mp hmem with h | h
            · simp [h]
            · exact ih2 p h hpo
          · rw [List.zip_cons_cons, List.filter_cons_of_pos ho,
              specGreedy_cons_go _ _ _ ha, hp0]
            have hb0 : billSaveFields { b with paid := b.paid + 0 } = b := by
              rw [billSaveFields_congr { b with paid := b.paid + 0 } b rfl rfl
                (by simp)]
              exact hsav b (List.mem_cons_self _ _)
            rw [hb0, sub_zero]
            simp [List.filterMap_cons, ho, ih3]
    · have ho' : openFor payer b = false := by
        simp only [Bool.not_eq_true] at ho
        exact ho
      rw [distributeBills_cons_other payer a b bs ho']
      obtain ⟨ih1, ih2, ih3⟩ := ih a hsav' hr'
      refine ⟨?_, ?_, ?_⟩
      · simp only [List.length_cons, ih1]
      · rw [List.zip_cons_cons]
        intro p hmem hpo
        rcases List.mem_cons.mp hmem with h | h
        · simp [h]
        · exact ih2 p h hpo
      · rw [List.zip_cons_cons, List.filter_cons_of_neg (by simp [ho'])]
        simp [List.filterMap_cons, ho', ih3]

/-- Concrete instance of c3_distribution. -/
theorem c3_distribution_witness :
    (distributeBills 7 600 c3WitnessBills).length = c3WitnessBills.length
    ∧ (∀ p ∈ c3WitnessBills.zip (distributeBills 7 600 c3WitnessBills),
        openFor 7 p.1 = false → p.2 = p.1)
    ∧ (c3WitnessBills.zip (distributeBills 7 600 c3WitnessBills)).filterMap
          (fun p => if openFor 7 p.1 then some p.2 else none)
        = specGreedy 600 (c3WitnessBills.filter (openFor 7)) :=
  c3_distribution 7 600 c3WitnessBills (by decide) (by decide)

/-! Helper lemmas for the conservation property of the distribution. -/

theorem openFor_cust (payer : Nat) (b : BillR) (ho : openFor payer b = true) :
    b.cust = payer := by
  rw [openFor] at ho
  simp at ho
  exact ho.1

theorem saved_open_facts (payer : Nat) (b : BillR)
    (hs : billSaveFields b = b) (h0 : 0 ≤ b.paid) (hpt : b.paid ≤ b.total)
    (ho : openFor payer b = true) :
    b.remaining = b.total - b.paid ∧ 0 ≤ b.remaining := by
  unfold billSaveFields at hs
  dsimp only at hs
  split_ifs at hs with h1 h2
  · have hrem := congrArg BillR.remaining hs
    simp only at hrem
    constructor <;> omega
  · have hst := congrArg BillR.status hs
    simp only at hst
    rw [openFor] at ho
    rw [← hst] at ho
    simp at ho
  · have hrem := congrArg BillR.remaining hs
    simp only at hrem
    constructor <;> omega

theorem sumPaidFor_cons_pos (payer : Nat) (x : BillR) (l : List BillR)
    (h : x.cust = payer) :
    sumPaidFor payer (x :: l) = x.paid + sumPaidFor payer l := by
  rw [sumPaidFor, List.filter_cons_of_pos (by simp [h]), List.map_cons,
    List.sum_cons]
  rfl

theorem sumPaidFor_cons_neg (payer : Nat) (x : BillR) (l : List BillR)
    (h : ¬ x.cust = payer) :
    sumPaidFor payer (x :: l) = sumPaidFor payer l := by
  rw [sumPaidFor, List.filter_cons_of_neg (by simp [h])]
  rfl

theorem sumOpenRemaining_cons_pos (payer : Nat) (x : BillR) (l : List BillR)
    (h : openFor payer x = true) :
    sumOpenRemaining payer (x :: l) = x.remaining + sumOpenRemaining payer l := by
  rw [sumOpenRemaining, List.filter_cons_of_pos h, List.map_cons, List.sum_cons]
  rfl

theorem sumOpenRemaining_cons_neg (payer : Nat) (x : BillR) (l : List BillR)
    (h : openFor payer x = false) :
    sumOpenRemaining payer (x :: l) = sumOpenRemaining payer l := by
  rw [sumOpenRemaining, List.filter_cons_of_neg (by simp [h])]
  rfl

theorem sumOpenRemaining_nonneg (payer : Nat) (bills : List BillR)
    (hsav : ∀ b ∈ bills, billSaveFields b = b)
    (h0 : ∀ b ∈ bills, 0 ≤ b.paid)
    (hpt : ∀ b ∈ bills, b.paid ≤ b.total) :
    0 ≤ sumOpenRemaining payer bills := by
  induction bills with
  | nil => simp [sumOpenRemaining]
  | cons b bs ih =>
    have tail : 0 ≤ sumOpenRemaining payer bs :=
      ih (fun x hx => hsav x (List.mem_cons_of_mem _ hx))
        (fun x hx => h0 x (List.mem_cons_of_mem _ hx))
        (fun x hx => hpt x (List.mem_cons_of_mem _ hx))
    by_cases ho : openFor payer b
    · have hb := (saved_open_facts payer b (hsav b (List.mem_cons_self _ _))
        (h0 b (List.mem_cons_self _ _)) (hpt b (List.mem_cons_self _ _)) ho).2
      rw [sumOpenRemaining_cons_pos payer b bs ho]
      omega
    · rw [sumOpenRemaining_cons_neg payer b bs (by simpa using ho)]
      exact tail

/-- C9: an unlinked payment of nonnegative amount A over bills in saved,
non-overpaid state increases the total paid_amount of the paying
customer's bills by exactly min(A, sum of remaining over that customer's
pending/partial bills), and leaves every bill's paid_amount at most its
total_amount. -/
theorem c9_distribution_totals (payer : Nat) (a : Int) (bills : List BillR)
    (ha : 0 ≤ a)
    (hsav : ∀ b ∈ bills, billSaveFields b = b)
    (h0 : ∀ b ∈ bills, 0 ≤ b.paid)
    (hpt : ∀ b ∈ bills, b.paid ≤ b.total) :
    sumPaidFor payer (distributeBills payer a bills)
        = sumPaidFor payer bills + min a (sumOpenRemaining payer bills)
    ∧ ∀ b ∈ distributeBills payer a bills, b.paid ≤ b.total := by
  induction bills generalizing a with
  | nil =>
    refine ⟨?_, ?_⟩
    · show sumPaidFor payer [] = sumPaidFor payer [] + min a (sumOpenRemaining payer [])
      have h1 : sumPaidFor payer ([] : List BillR) = 0 := rfl
      have h2 : sumOpenRemaining payer ([] : List BillR) = 0 := rfl
      omega
    · intro b hb
      cases hb
  | cons b bs ih =>
    have hsav' : ∀ x ∈ bs, billSaveFields x = x :=
      fun x hx => hsav x (List.mem_cons_of_mem _ hx)
    have h0' : ∀ x ∈ bs, 0 ≤ x.paid :=
      fun x hx => h0 x (List.mem_cons_of_mem _ hx)
    have hpt' : ∀ x ∈ bs, x.paid ≤ x.total :=
      fun x hx => hpt x (List.mem_cons_of_mem _ hx)
    have hS : 0 ≤ sumOpenRemaining payer bs :=
      sumOpenRemaining_nonneg payer bs hsav' h0' hpt'
    have hptb : b.paid ≤ b.total := hpt b (List.mem_cons_self _ _)
    by_cases ho : openFor payer b
    · have hcust : b.cust = payer := openFor_cust payer b ho
      have hfacts := saved_open_facts payer b (hsav b (List.mem_cons_self _ _))
        (h0 b (List.mem_cons_self _ _)) hptb ho
      by_cases hstop : a ≤ 0
      · rw [distributeBills_cons_break payer a b bs ho hstop]
        refine ⟨?_, fun x hx => hpt x hx⟩
        rw [sumOpenRemaining_cons_pos payer b bs ho]
        omega
      · push_neg at hstop
        by_cases hp : 0 < min a b.remaining
        · rw [distributeBills_cons_pay payer a b bs ho hstop hp]
          obtain ⟨ih1, ih2⟩ := ih (a - min a b.remaining) (by omega) hsav' h0' hpt'
          refine ⟨?_, ?_⟩
          · rw [sumPaidFor_cons_pos payer _ _
              (by rw [billSaveFields_cust]; exact hcust)]
            rw [billSaveFields_paid, ih1,
              sumPaidFor_cons_pos payer b bs hcust,
              sumOpenRemaining_cons_pos payer b bs ho]
            dsimp only
            omega
          · intro x hx
            rcases List.mem_cons.mp hx with h | h
            · rw [h, billSaveFields_paid, billSaveFields_total]
              dsimp only
              omega
            · exact ih2 x h
        · rw [distributeBills_cons_skip payer a b bs ho hstop hp]
          obtain ⟨ih1, ih2⟩ := ih a ha hsav' h0' hpt'
          refine ⟨?_, ?_⟩
          · rw [sumPaidFor_cons_pos payer b _ hcust, ih1,
              sumPaidFor_cons_pos payer b bs hcust,
              sumOpenRemaining_cons_pos payer b bs ho]
            omega
          · intro x hx
            rcases List.mem_cons.mp hx with h | h
            · rw [h]; exact hptb
            · exact ih2 x h
    · have ho' : openFor payer b = false := by simpa using ho
      rw [distributeBills_cons_other payer a b bs ho']
      obtain ⟨ih1, ih2⟩ := ih a ha hsav' h0' hpt'
      refine ⟨?_, ?_⟩
      · by_cases hc : b.cust = payer
        · rw [sumPaidFor_cons_pos payer b _ hc, ih1,
            sumPaidFor_cons_pos payer b bs hc,
            sumOpenRemaining_cons_neg payer b bs ho']
          omega
        · rw [sumPaidFor_cons_neg payer b _ hc, ih1,
            sumPaidFor_cons_neg payer b bs hc,
            sumOpenRemaining_cons_neg payer b bs ho']
      · intro x hx
        rcases List.mem_cons.mp hx with h | h
        · rw [h]; exact hptb
        · exact ih2 x h

/-- Concrete instance of c9_distribution_totals. -/
theorem c9_distribution_totals_witness :
    sumPaidFor 3 (distributeBills 3 9999 c9WitnessBills)
        = sumPaidFor 3 c9WitnessBills
            + min 9999 (sumOpenRemaining 3 c9WitnessBills)
    ∧ ∀ b ∈ distributeBills 3 9999 c9WitnessBills, b.paid ≤ b.total :=
  c9_distribution_totals 3 9999 c9WitnessBills (by decide) (by decide)
    (by decide) (by decide)

/-! Helper lemmas for the balance invariant. -/

theorem sum_map_add (l : List Nat) (f g : Nat → Int) :
    (l.map (fun c => f c + g c)).sum = (l.map f).sum + (l.map g).sum := by
  induction l with
  | nil => simp
  | cons a t ih =>
    simp only [List.map_cons, List.sum_cons, ih]
    ring

theorem sum_map_ite_zero (l : List Nat) (x : Nat) (r : Int) (hx : x ∉ l) :
    (l.map (fun c => if x = c then r else 0)).sum = 0 := by
  induction l with
  | nil => rfl
  | cons a t ih =>
    simp only [List.map_cons, List.sum_cons]
    have hxa : ¬ x = a := fun h => hx (by rw [h]; exact List.mem_cons_self _ _)
    rw [if_neg hxa, ih (fun h => hx (List.mem_cons_of_mem _ h))]
    simp

theorem sum_map_ite_single (l : List Nat) (x : Nat) (r : Int)
    (hnd : l.Nodup) (hx : x ∈ l) :
    (l.map (fun c => if x = c then r else 0)).sum = r := by
  induction l with
  | nil => cases hx
  | cons a t ih =>
    simp only [List.map_cons, List.sum_cons]
    rcases List.mem_cons.mp hx with h | h
    · rw [if_pos h, sum_map_ite_zero t x r (h ▸ (List.nodup_cons.mp hnd).1)]
      simp
    · have hne : x ≠ a := fun he => (List.nodup_cons.mp hnd).1 (he ▸ h)
      rw [if_neg hne, ih (List.nodup_cons.mp hnd).2 h]
      simp

theorem sumRemaining_cons (b : BillR) (l : List BillR) (c : Nat) :
    sumRemaining (b :: l) c
      = (if b.cust = c then b.remaining else 0) + sumRemaining l c := by
  by_cases h : b.cust = c
  · rw [sumRemaining, List.filter_cons_of_pos (by simp [h]), List.map_cons,
      List.sum_cons, if_pos h]
    rfl
  · rw [sumRemaining, List.filter_cons_of_neg (by simp [h]), if_neg h]
    rw [sumRemaining]
    omega

theorem partition_sum (custs : List Nat) (bills : List BillR)
    (hnd : custs.Nodup) (hcov : ∀ b ∈ bills, b.cust ∈ custs) :
    (custs.map (fun c => sumRemaining bills c)).sum
      = (bills.map (fun b => b.remaining)).sum := by
  induction bills with
  | nil =>
    have h0 : ∀ c : Nat, sumRemaining [] c = 0 := fun _ => rfl
    simp [h0]
  | cons b bs ih =>
    have hcov2 : ∀ x ∈ bs, x.cust ∈ custs :=
      fun x hx => hcov x (List.mem_cons_of_mem _ hx)
    have hb : b.cust ∈ custs := hcov b (List.mem_cons_self _ _)
    simp only [sumRemaining_cons]
    rw [sum_map_add, sum_map_ite_single custs b.cust b.remaining hnd hb,
      ih hcov2, List.map_cons, List.sum_cons]

theorem sameExcept_refl (c : Nat) (l : List BillR) : SameExcept c l l := by
  refine ⟨rfl, ?_⟩
  intro p hp
  have hne := zip_self_eq l p hp
  exact ⟨by rw [hne], fun _ => hne.symm⟩

theorem sameExcept_cons (c : Nat) (x y : BillR) (l1 l2 : List BillR)
    (hxy : x.cust = y.cust) (hne : x.cust ≠ c → y = x)
    (h : SameExcept c l1 l2) : SameExcept c (x :: l1) (y :: l2) := by
  obtain ⟨hl, hp⟩ := h
  refine ⟨by simp [hl], ?_⟩
  rw [List.zip_cons_cons]
  intro p hmem
  rcases List.mem_cons.mp hmem with h1 | h1
  · rw [h1]
    exact ⟨hxy, hne⟩
  · exact hp p h1

theorem sameExcept_set (bills : List BillR) :
    ∀ (i : Nat) (b bn : BillR), bills[i]? = some b → bn.cust = b.cust →
      SameExcept b.cust bills (bills.set i bn) := by
  induction bills with
  | nil =>
    intro i b bn hb _
    simp at hb
  | cons x xs ih =>
    intro i b bn hb hcu
    cases i with
    | zero =>
      have hx : x = b := by simpa using hb
      subst hx
      rw [List.set_cons_zero]
      exact sameExcept_cons x.cust x bn xs xs hcu.symm
        (fun hne => absurd rfl hne) (sameExcept_refl _ _)
    | succ n =>
      have hb2 : xs[n]? = some b := by simpa using hb
      rw [List.set_cons_succ]
      exact sameExcept_cons b.cust x x xs (xs.set n bn) rfl (fun _ => rfl)
        (ih n b bn hb2 hcu)

theorem sameExcept_distribute (payer : Nat) (a : Int) (bills : List BillR) :
    SameExcept payer bills (distributeBills payer a bills) := by
  induction bills generalizing a with
  | nil =>
    refine ⟨rfl, ?_⟩
    intro p hp
    cases hp
  | cons b bs ih =>
    by_cases ho : openFor payer b
    · have hcust : b.cust = payer := openFor_cust payer b ho
      by_cases hstop : a ≤ 0
      · rw [distributeBills_cons_break payer a b bs ho hstop]
        exact sameExcept_refl _ _
      · push_neg at hstop
        by_cases hp : 0 < min a b.remaining
        · rw [distributeBills_cons_pay payer a b bs ho hstop hp]
          exact sameExcept_cons payer b _ bs _ (by rw [billSaveFields_cust])
            (fun hne => absurd hcust hne) (ih _)
        · rw [distributeBills_cons_skip payer a b bs ho hstop hp]
          exact sameExcept_cons payer b b bs _ rfl (fun _ => rfl) (ih _)
    · rw [distributeBills_cons_other payer a b bs (by simpa using ho)]
      exact sameExcept_cons payer b b bs _ rfl (fun _ => rfl) (ih _)

theorem sameExcept_sum (c0 : Nat) (l1 : List BillR) :
    ∀ l2, SameExcept c0 l1 l2 → ∀ c, c ≠ c0 →
      sumRemaining l2 c = sumRemaining l1 c := by
  induction l1 with
  | nil =>
    intro l2 h c _
    obtain ⟨hl, _⟩ := h
    cases l2 with
    | nil => rfl
    | cons y ys => cases hl
  | cons x xs ih =>
    intro l2 h c hc
    obtain ⟨hl, hp⟩ := h
    cases l2 with
    | nil => cases hl
    | cons y ys =>
      have hhead := hp (x, y)
        (by rw [List.zip_cons_cons]; exact List.mem_cons_self _ _)
      have htail : ∀ p ∈ xs.zip ys, p.1.cust = p.2.cust
          ∧ (p.1.cust ≠ c0 → p.2 = p.1) := fun p hm =>
        hp p (by rw [List.zip_cons_cons]; exact List.mem_cons_of_mem _ hm)
      have hlen : xs.length = ys.length := by simpa using hl
      rw [sumRemaining_cons, sumRemaining_cons, ih ys ⟨hlen, htail⟩ c hc]
      congr 1
      by_cases hxc : x.cust = c
      · have hyx : y = x := hhead.2 (by rw [hxc]; exact hc)
        rw [hyx]
      · rw [if_neg (by rw [← hhead.1]; exact hxc), if_neg hxc]

theorem sameExcept_cust_mem (c0 : Nat) (l1 : List BillR) :
    ∀ l2, SameExcept c0 l1 l2 → ∀ y ∈ l2, ∃ x ∈ l1, y.cust = x.cust := by
  induction l1 with
  | nil =>
    intro l2 h y hy
    obtain ⟨hl, _⟩ := h
    cases l2 with
    | nil => cases hy
    | cons z zs => cases hl
  | cons x xs ih =>
    intro l2 h y hy
    obtain ⟨hl, hp⟩ := h
    cases l2 with
    | nil => cases hl
    | cons z zs =>
      have hhead := hp (x, z)
        (by rw [List.zip_cons_cons]; exact List.mem_cons_self _ _)
      have htail : ∀ p ∈ xs.zip zs, p.1.cust = p.2.cust
          ∧ (p.1.cust ≠ c0 → p.2 = p.1) := fun p hm =>
        hp p (by rw [List.zip_cons_cons]; exact List.mem_cons_of_mem _ hm)
      rcases List.mem_cons.mp hy with h1 | h1
      · exact ⟨x, List.mem_cons_self _ _, by rw [h1, ← hhead.1]⟩
      · obtain ⟨w, hw, hwc⟩ := ih zs ⟨by simpa using hl, htail⟩ y h1
        exact ⟨w, List.mem_cons_of_mem _ hw, hwc⟩

theorem sumRemaining_eraseIdx (bills : List BillR) :
    ∀ (i : Nat) (b : BillR), bills[i]? = some b → ∀ c, c ≠ b.cust →
      sumRemaining (bills.eraseIdx i) c = sumRemaining bills c := by
  induction bills with
  | nil =>
    intro i b hb
    simp at hb
  | cons x xs ih =>
    intro i b hb c hc
    cases i with
    | zero =>
      have hx : x = b := by simpa using hb
      subst hx
      rw [List.eraseIdx_cons_zero, sumRemaining_cons,
        if_neg (fun h => hc h.symm)]
      omega
    | succ n =>
      have hb2 : xs[n]? = some b := by simpa using hb
      rw [List.eraseIdx_cons_succ, sumRemaining_cons, sumRemaining_cons,
        ih n b hb2 c hc]

theorem mem_of_mem_eraseIdx (l : List BillR) :
    ∀ (i : Nat) (x : BillR), x ∈ l.eraseIdx i → x ∈ l := by
  induction l with
  | nil =>
    intro i x hx
    cases i <;> cases hx
  | cons a t ih =>
    intro i x hx
    cases i with
    | zero =>
      rw [List.eraseIdx_cons_zero] at hx
      exact List.mem_cons_of_mem _ hx
    | succ n =>
      rw [List.eraseIdx_cons_succ] at hx
      rcases List.mem_cons.mp hx with h | h
      · rw [h]
        exact List.mem_cons_self _ _
      · exact List.mem_cons_of_mem _ (ih n x h)

theorem sumRemaining_append_single (l : List BillR) (b : BillR) (c : Nat)
    (hc : c ≠ b.cust) :
    sumRemaining (l ++ [b]) c = sumRemaining l c := by
  rw [sumRemaining, List.filter_append,
    List.filter_cons_of_neg (by simp; exact fun h => hc h.symm)]
  rw [List.filter_nil, List.append_nil]
  rfl

theorem updateBalance_bills (s : St) (c : Nat) :
    (updateBalance s c).bills = s.bills := rfl

theorem updateBalance_custs (s : St) (c : Nat) :
    (updateBalance s c).custs = s.custs := rfl

theorem updateBalance_bal_self (s : St) (c : Nat) :
    (updateBalance s c).bal c = sumRemaining s.bills c := by
  simp [updateBalance]

theorem updateBalance_bal_other (s : St) (c d : Nat) (h : d ≠ c) :
    (updateBalance s c).bal d = s.bal d := by
  simp [updateBalance, h]

theorem consistent_update_one (s : St) (bills2 : List BillR) (c1 : Nat)
    (hse : SameExcept c1 s.bills bills2) (hc : Consistent s) :
    Consistent (updateBalance { s with bills := bills2 } c1) := by
  intro d hd
  by_cases h1 : d = c1
  · subst h1
    rw [updateBalance_bal_self]
    simp only [updateBalance_bills]
  · rw [updateBalance_bal_other _ _ _ h1]
    simp only [updateBalance_bills]
    show s.bal d = sumRemaining bills2 d
    rw [sameExcept_sum c1 s.bills bills2 hse d h1]
    exact hc d hd

theorem consistent_update_two (s : St) (bills2 : List BillR) (c1 c2 : Nat)
    (hse : SameExcept c1 s.bills bills2) (hc : Consistent s) :
    Consistent (updateBalance (updateBalance { s with bills := bills2 } c1) c2) := by
  intro d hd
  by_cases h2 : d = c2
  · subst h2
    rw [updateBalance_bal_self]
    simp only [updateBalance_bills]
  · rw [updateBalance_bal_other _ _ _ h2]
    simp only [updateBalance_bills]
    exact consistent_update_one s bills2 c1 hse hc d hd

theorem consistent_update_id (s : St) (c1 : Nat) (hc : Consistent s) :
    Consistent (updateBalance s c1) := by
  intro d hd
  by_cases h1 : d = c1
  · subst h1
    rw [updateBalance_bal_self]
    simp only [updateBalance_bills]
  · rw [updateBalance_bal_other _ _ _ h1]
    simp only [updateBalance_bills]
    exact hc d hd

theorem covered_of_sameExcept (custs : List Nat) (bills1 bills2 : List BillR)
    (c0 : Nat) (hse : SameExcept c0 bills1 bills2)
    (hcov : ∀ b ∈ bills1, b.cust ∈ custs) :
    ∀ b ∈ bills2, b.cust ∈ custs := by
  intro y hy
  obtain ⟨x, hx, hxc⟩ := sameExcept_cust_mem c0 bills1 bills2 hse y hy
  rw [hxc]
  exact hcov x hx

theorem payLinked_cust (amount : Int) (b : BillR) :
    (payLinked amount b).cust = b.cust := by
  rw [payLinked_eq, billSaveFields_cust]

theorem payDeleteLinked_cust (amount : Int) (b : BillR) :
    (payDeleteLinked amount b).cust = b.cust := by
  rw [payDeleteLinked_eq, billSaveFields_cust]

theorem applyOp_preserves (s : St) (op : Op) (hc : Consistent s)
    (hcov : Covered s) (hwf : opWF s op) :
    Consistent (applyOp s op) ∧ Covered (applyOp s op)
      ∧ (applyOp s op).custs = s.custs := by
  cases op with
  | billCreate c t p =>
    have hwfc : c ∈ s.custs := hwf
    have hbc : (billSaveFields
        { cust := c, total := t, paid := p, remaining := 0,
          status := PayStatus.pending }).cust = c := by
      rw [billSaveFields_cust]
    simp only [applyOp, opBillCreate]
    refine ⟨?_, ?_, by trivial⟩
    · intro d hd
      by_cases h1 : d = c
      · subst h1
        rw [updateBalance_bal_self]
        simp only [updateBalance_bills]
      · rw [updateBalance_bal_other _ _ _ h1]
        simp only [updateBalance_bills]
        show s.bal d = _
        rw [sumRemaining_append_single s.bills _ d (by rw [hbc]; exact h1)]
        exact hc d hd
    · intro b hb
      simp only [updateBalance_bills] at hb
      rcases List.mem_append.mp hb with h | h
      · exact hcov b h
      · have hx : b = billSaveFields
            { cust := c, total := t, paid := p, remaining := 0,
              status := PayStatus.pending } := by simpa using h
        rw [hx, hbc]
        exact hwfc
  | billSaveIdx i t p =>
    cases heq : s.bills[i]? with
    | none =>
      simp only [applyOp, opBillSave, heq]
      exact ⟨hc, hcov, by trivial⟩
    | some b =>
      simp only [applyOp, opBillSave, heq]
      have hse := sameExcept_set s.bills i b
        (billSaveFields { b with total := t, paid := p }) heq
        (by rw [billSaveFields_cust])
      exact ⟨consistent_update_one s _ b.cust hse hc,
        covered_of_sameExcept s.custs s.bills _ b.cust hse hcov, by trivial⟩
  | billDelete i =>
    cases heq : s.bills[i]? with
    | none =>
      simp only [applyOp, opBillDelete, heq]
      exact ⟨hc, hcov, by trivial⟩
    | some b =>
      simp only [applyOp, opBillDelete, heq]
      refine ⟨?_, ?_, by trivial⟩
      · intro d hd
        by_cases h1 : d = b.cust
        · subst h1
          rw [updateBalance_bal_self]
          simp only [updateBalance_bills]
        · rw [updateBalance_bal_other _ _ _ h1]
          simp only [updateBalance_bills]
          show s.bal d = _
          rw [sumRemaining_eraseIdx s.bills i b heq d h1]
          exact hc d hd
      · intro x hx
        simp only [updateBalance_bills] at hx
        exact hcov x (mem_of_mem_eraseIdx s.bills i x hx)
  | payCreate bi payer a =>
    cases bi with
    | none =>
      exact ⟨consistent_update_one s _ payer
          (sameExcept_distribute payer a s.bills) hc,
        covered_of_sameExcept s.custs s.bills _ payer
          (sameExcept_distribute payer a s.bills) hcov, by trivial⟩
    | some i =>
      cases heq : s.bills[i]? with
      | none =>
        simp only [applyOp, opPayLinked, heq]
        exact ⟨consistent_update_id s payer hc, hcov, by trivial⟩
      | some b =>
        simp only [applyOp, opPayLinked, heq]
        have hse := sameExcept_set s.bills i b (payLinked a b) heq
          (payLinked_cust a b)
        exact ⟨consistent_update_two s _ b.cust payer hse hc,
          covered_of_sameExcept s.custs s.bills _ b.cust hse hcov, by trivial⟩
  | payDelete bi payer a =>
    cases bi with
    | none =>
      exact ⟨consistent_update_id s payer hc, hcov, by trivial⟩
    | some i =>
      cases heq : s.bills[i]? with
      | none =>
        simp only [applyOp, opPayDelete, heq]
        exact ⟨consistent_update_id s payer hc, hcov, by trivial⟩
      | some b =>
        simp only [applyOp, opPayDelete, heq]
        have hse := sameExcept_set s.bills i b (payDeleteLinked a b) heq
          (payDeleteLinked_cust a b)
        exact ⟨consistent_update_two s _ b.cust payer hse hc,
          covered_of_sameExcept s.custs s.bills _ b.cust hse hcov, by trivial⟩

/-- C4: starting from a state whose cached balances are consistent (and
whose bills all belong to listed customers), every Bill or Payment write
or delete leaves every customer's cached outstanding_balance equal to the
sum of remaining_amount over ALL of that customer's bills, and
consequently the sum of all customers' balances equals the sum of all
bills' remaining_amount. -/
theorem c4_balance_invariant (s : St) (op : Op) (hc : Consistent s)
    (hcov : Covered s) (hnd : s.custs.Nodup) (hwf : opWF s op) :
    Consistent (applyOp s op)
    ∧ ((applyOp s op).custs.map (applyOp s op).bal).sum
        = ((applyOp s op).bills.map (fun b => b.remaining)).sum := by
  obtain ⟨hc2, hcov2, hcusts⟩ := applyOp_preserves s op hc hcov hwf
  refine ⟨hc2, ?_⟩
  have hmap : ((applyOp s op).custs.map (applyOp s op).bal).sum
      = ((applyOp s op).custs.map
          (fun c => sumRemaining (applyOp s op).bills c)).sum := by
    congr 1
    apply List.map_congr_left
    intro c hcm
    exact hc2 c hcm
  rw [hmap, partition_sum _ _ (by rw [hcusts]; exact hnd) hcov2]

/-- Concrete instance of c4_balance_invariant. -/
theorem c4_balance_invariant_witness :
    Consistent (applyOp c4WitnessState (Op.payCreate none 1 50))
    ∧ ((applyOp c4WitnessState (Op.payCreate none 1 50)).custs.map
          (applyOp c4WitnessState (Op.payCreate none 1 50)).bal).sum
        = ((applyOp c4WitnessState (Op.payCreate none 1 50)).bills.map
            (fun b => b.remaining)).sum :=
  c4_balance_invariant c4WitnessState (Op.payCreate none 1 50)
    (by unfold Consistent; decide) (by unfold Covered; decide) (by decide) ⟨⟩

end Agro
